import Mathlib

/-!
Shallow embedding of the highlight-reconciliation and rendering pipeline of
the `ai-clip-cutter` repository, together with proofs of the specification
claims about it.

Embedded source functions:
* `TranscriptionAnalyzer._fix_highlight_timestamps`  (src/modules/TranscriptionAnalyzer.py)
* `SubtitleProcessor._split_subtitle`                (src/modules/VideoProcessor.py)
* the caption-filtering fragment of `VideoProcessor.process_video`
* `VideoProcessor._crop_to_aspect_ratio`
* the per-highlight loop of `process_highlights`     (src/main.py)

Python floats are modelled as exact rationals (`Rat`): the embedded code only
copies, adds, subtracts, multiplies and divides timestamp values, and the
claims are stated under exact rational arithmetic.  Python `int` values are
modelled as `Int`, with Python's floor division `//` rendered as `Int.fdiv`
and `int(...)` truncation rendered as `pyInt`.
-/

/-- Python's whitespace test (`str.split` / `str.strip` / regex class, ASCII range). -/
def isWs (c : Char) : Bool :=
  c == ' ' || c == '\t' || c == '\n' || c == '\r' || c == '\x0b' || c == '\x0c'

/-- Python `str.strip()`: drop leading and trailing whitespace. -/
def pyStrip (s : String) : String :=
  String.mk (((s.data.dropWhile isWs).reverse.dropWhile isWs).reverse)

/-- Characters `.`, `!`, `?` : the sentence terminators of the regex
lookbehind in `_fix_highlight_timestamps`. -/
def isSentTerm (c : Char) : Bool :=
  c == '.' || c == '!' || c == '?'

/-- Engine for Python's `re.split(r'(?<=[.!?])\s+', s)`.
The first argument is true while consuming the whitespace run of a match
(those characters are part of the separator and are dropped); in normal mode
the head of the accumulator `cur` is the character immediately preceding the
current position, which realises the lookbehind. -/
def splitSentAux : Bool → List Char → List Char → List (List Char)
  | _, [], cur => [cur.reverse]
  | true, c :: cs, cur =>
    if isWs c then splitSentAux true cs cur
    else splitSentAux false cs (c :: cur)
  | false, c :: cs, cur =>
    if isWs c && (match cur with | p :: _ => isSentTerm p | [] => false) then
      cur.reverse :: splitSentAux true cs []
    else splitSentAux false cs (c :: cur)

/-- Lines 147-148 of TranscriptionAnalyzer.py:
`sentences = re.split(r'(?<=[.!?])\s+', highlight['content'].strip())`
followed by `sentences = [s for s in sentences if s]`. -/
def splitSentences (content : String) : List String :=
  ((splitSentAux false (pyStrip content).data []).map fun l => String.mk l).filter
    fun s => s != ""

/-- Boolean prefix test on character lists. -/
def isPfx : List Char → List Char → Bool
  | [], _ => true
  | _ :: _, [] => false
  | a :: as, b :: bs => a == b && isPfx as bs

/-- Boolean substring occurrence on character lists. -/
def containsChars (needle : List Char) : List Char → Bool
  | [] => isPfx needle []
  | c :: rest => isPfx needle (c :: rest) || containsChars needle rest

/-- Python's `needle in hay` on strings. -/
def containsSub (needle hay : String) : Bool :=
  containsChars needle.data hay.data

/-- A transcription segment `{text, start, end}`; the Python dict's `end`
key is rendered as the field `stop` (`end` is a Lean keyword). -/
structure Segment where
  text : String
  start : Rat
  stop : Rat
deriving DecidableEq, Repr

/-- A highlight `{start, end, content}` as handled by
`_fix_highlight_timestamps`; `end` is rendered as `stop`. -/
structure Highlight where
  start : Rat
  stop : Rat
  content : String
deriving DecidableEq, Repr

/-- The anchor-search loop of `_fix_highlight_timestamps` (lines 161-168):

```
for segment in original_transcription:
    if first_sentence in segment['text'] and start_segment is None:
        start_segment = segment
    if last_sentence in segment['text']:
        end_segment = segment
    if start_segment and end_segment:
        break
```

The two `Option Segment` arguments are the current `start_segment` and
`end_segment`; segment dicts are non-empty, so Python truthiness of
`start_segment and end_segment` is `isSome` of both. -/
def scanAnchors (first lastS : String) :
    List Segment → Option Segment → Option Segment → Option Segment × Option Segment
  | [], s, e => (s, e)
  | seg :: rest, s, e =>
    let s' := if s.isNone && containsSub first seg.text then some seg else s
    let e' := if containsSub lastS seg.text then some seg else e
    if s'.isSome && e'.isSome then (s', e')
    else scanAnchors first lastS rest s' e'

/-- `TranscriptionAnalyzer._fix_highlight_timestamps` (lines 134-176).
Splits the content into sentences, returns the highlight unmodified when no
sentence remains, otherwise scans the transcription for the first and last
sentences and overwrites `start` / `end` with the anchors' boundaries when
found. -/
def fix_highlight_timestamps (highlight : Highlight) (original_transcription : List Segment) :
    Highlight :=
  match splitSentences highlight.content with
  | [] => highlight
  | s0 :: rest =>
    let first_sentence := s0
    let last_sentence := rest.getLastD s0
    let r := scanAnchors first_sentence last_sentence original_transcription none none
    let h1 := match r.1 with
      | some seg => { highlight with start := seg.start }
      | none => highlight
    match r.2 with
    | some seg => { h1 with stop := seg.stop }
    | none => h1

/-- The earliest element of a list satisfying `p` (specification vocabulary;
this is `List.find?` spelled out for self-contained induction). -/
def firstMatch {α : Type} (p : α → Bool) : List α → Option α
  | [] => none
  | a :: rest => if p a then some a else firstMatch p rest

/-- The latest element of a list satisfying `p`. -/
def lastMatch {α : Type} (p : α → Bool) : List α → Option α
  | [] => none
  | a :: rest =>
    match lastMatch p rest with
    | some x => some x
    | none => if p a then some a else none

/-- The prefix of a list up to and including its earliest element
satisfying `p` (the whole list when no element satisfies `p`). -/
def upToFirst {α : Type} (p : α → Bool) : List α → List α
  | [] => []
  | a :: rest => if p a then [a] else a :: upToFirst p rest

/-- The end anchor that the scan loop of `_fix_highlight_timestamps`
actually selects (the loop stops as soon as both anchors are set, so later
last-sentence matches are never seen): when some segment satisfies the
first-sentence predicate `pF`, the end anchor is the latest `pL`-match
within the prefix up to and including the earliest `pF`-match, and failing
that the earliest `pL`-match of the whole list; when no segment satisfies
`pF`, the end anchor is the latest `pL`-match of the whole list. -/
def endAnchorSpec {α : Type} (pF pL : α → Bool) (ts : List α) : Option α :=
  if (firstMatch pF ts).isSome then
    match lastMatch pL (upToFirst pF ts) with
    | some e => some e
    | none => firstMatch pL ts
  else lastMatch pL ts

/-- The per-segment matching predicate of the anchor scan: does the
segment's text contain `needle` as a substring. -/
def matchesSeg (needle : String) (seg : Segment) : Bool :=
  containsSub needle seg.text

/-- Replace `none` by a default, keeping any present value: the value of a
loop variable that started as `some y` and was overwritten on matches. -/
def someD {α : Type} (o : Option α) (y : α) : Option α :=
  some (o.getD y)

/-- A caption record `{start, end, text}` of `SubtitleProcessor`; `end` is
rendered as `stop`. -/
structure Subtitle where
  start : Rat
  stop : Rat
  text : String
deriving DecidableEq, Repr

/-- Python `str.split()`: split on whitespace runs, dropping empty pieces. -/
def pySplitAux : List Char → List Char → List String
  | [], cur => if cur.isEmpty then [] else [String.mk cur.reverse]
  | c :: cs, cur =>
    if isWs c then
      if cur.isEmpty then pySplitAux cs [] else String.mk cur.reverse :: pySplitAux cs []
    else pySplitAux cs (c :: cur)

/-- Python `text.split()`. -/
def pySplit (s : String) : List String :=
  pySplitAux s.data []

/-- Python `' '.join(ws)`. -/
def joinSp : List String → String
  | [] => ""
  | [w] => w
  | w :: x :: ws => w ++ " " ++ joinSp (x :: ws)

/-- The chunk-building loop of `SubtitleProcessor._split_subtitle`
(lines 42-55): `for i in range(0, len(words), 3)` with
`chunk = words[i:i+3]`, `chunk_duration = duration * (len(chunk) / len(words))`,
`chunk_start = subtitle['start'] + (duration * (i / len(words)))` and
`chunk_end = chunk_start + chunk_duration`.  `W` is `len(words)` and `i` the
running offset. -/
def buildChunks (start duration : Rat) (W : Nat) : Nat → List String → List Subtitle
  | i, [w] =>
    let chunk := [w]
    let chunk_duration := duration * ((chunk.length : Rat) / (W : Rat))
    let chunk_start := start + duration * ((i : Rat) / (W : Rat))
    [⟨chunk_start, chunk_start + chunk_duration, joinSp chunk⟩]
  | i, [w, x] =>
    let chunk := [w, x]
    let chunk_duration := duration * ((chunk.length : Rat) / (W : Rat))
    let chunk_start := start + duration * ((i : Rat) / (W : Rat))
    [⟨chunk_start, chunk_start + chunk_duration, joinSp chunk⟩]
  | i, w :: x :: y :: rest =>
    let chunk := [w, x, y]
    let chunk_duration := duration * ((chunk.length : Rat) / (W : Rat))
    let chunk_start := start + duration * ((i : Rat) / (W : Rat))
    ⟨chunk_start, chunk_start + chunk_duration, joinSp chunk⟩ ::
      buildChunks start duration W (i + 3) rest
  | _, [] => []

/-- `SubtitleProcessor._split_subtitle` (lines 27-57). -/
def split_subtitle (subtitle : Subtitle) : List Subtitle :=
  let words := pySplit subtitle.text
  let duration := subtitle.stop - subtitle.start
  buildChunks subtitle.start duration words.length 0 words

/-- The caption-filtering fragment of `VideoProcessor.process_video`
(lines 186-192): keep the subtitles fully inside
`[start_time, end_time]`, then shift the kept ones to local time. -/
def trim_subtitles (subtitles : List Subtitle) (start_time end_time : Rat) : List Subtitle :=
  (subtitles.filter fun s => decide (start_time ≤ s.start) && decide (s.stop ≤ end_time)).map
    fun s => ⟨s.start - start_time, s.stop - start_time, s.text⟩

/-- Python `int(x)` on a float: truncation toward zero. -/
def pyInt (x : Rat) : Int :=
  if 0 ≤ x then ⌊x⌋ else ⌈x⌉

/-- Integer crop bounds `{x1, y1, x2, y2}` of a `video.crop(...)` call. -/
structure CropRect where
  x1 : Int
  y1 : Int
  x2 : Int
  y2 : Int
deriving DecidableEq, Repr

/-- `VideoProcessor._crop_to_aspect_ratio` (lines 279-304), reporting the
crop bounds passed to `video.crop` (the unchanged-video branch reports the
full frame `{0, 0, width, height}`).  Python's `//` is floor division,
hence `Int.fdiv`. -/
def crop_to_aspect_ratio (width height : Int) (target_aspect_ratio : Rat) : CropRect :=
  let input_aspect_ratio : Rat := (width : Rat) / (height : Rat)
  if target_aspect_ratio < input_aspect_ratio then
    let target_width := pyInt ((height : Rat) * target_aspect_ratio)
    let crop_x := Int.fdiv (width - target_width) 2
    ⟨crop_x, 0, crop_x + target_width, height⟩
  else if input_aspect_ratio < target_aspect_ratio then
    let target_height := pyInt ((width : Rat) / target_aspect_ratio)
    let crop_y := Int.fdiv (height - target_height) 2
    ⟨0, crop_y, width, crop_y + target_height⟩
  else
    ⟨0, 0, width, height⟩

/-- Outcome of one iteration of the highlight loop of `process_highlights`
(src/main.py lines 224-243): either the success log (output path) or the
logged-and-swallowed failure of the `except` branch. -/
inductive RenderOutcome where
  | rendered (path : String)
  | failed (msg : String)
deriving DecidableEq, Repr

/-- The per-highlight `try` body, whose failure modes are modelled as
`Except` values: `.ok` is a completed render, `.error` an exception raised
anywhere inside the body. -/
def handleHighlight (render : Highlight → Except String String) (h : Highlight) :
    RenderOutcome :=
  match render h with
  | .ok p => .rendered p
  | .error e => .failed e

/-- `process_highlights` (src/main.py lines 220-243): each highlight is
processed inside `try: ... except Exception as e: logging.error(...);
continue`, so every iteration runs regardless of earlier outcomes. -/
def process_highlights (render : Highlight → Except String String) :
    List Highlight → List RenderOutcome
  | [] => []
  | h :: rest => handleHighlight render h :: process_highlights render rest

/-! ### Lemmas about the anchor-search loop of `_fix_highlight_timestamps` -/

theorem scan_fst_locked (f l : String) (x : Segment) :
    ∀ (ts : List Segment) (e : Option Segment), (scanAnchors f l ts (some x) e).1 = some x := by
  intro ts
  induction ts with
  | nil => intro e; rfl
  | cons seg rest ih =>
    intro e
    simp only [scanAnchors, Option.isNone_some, Bool.false_and, Bool.false_eq_true, if_false,
      Option.isSome_some, Bool.true_and]
    split
    · rfl
    · split
      · rfl
      · exact ih _

theorem scan_snd_stable (f l : String) (x : Segment) :
    ∀ (ts : List Segment), (∀ seg ∈ ts, containsSub l seg.text = false) →
      ∀ s, (scanAnchors f l ts s (some x)).2 = some x := by
  intro ts
  induction ts with
  | nil => intro _ s; rfl
  | cons seg rest ih =>
    intro hno s
    have h0 : containsSub l seg.text = false := hno seg (List.mem_cons_self _ _)
    simp only [scanAnchors, h0, Bool.false_eq_true, if_false, Option.isSome_some, Bool.and_true]
    split
    · rfl
    · split
      · rfl
      · exact ih (fun t ht => hno t (List.mem_cons_of_mem _ ht)) _

theorem scan_fst_none (f l : String) :
    ∀ (ts : List Segment), (∀ seg ∈ ts, containsSub f seg.text = false) →
      ∀ e, (scanAnchors f l ts none e).1 = none := by
  intro ts
  induction ts with
  | nil => intro _ e; rfl
  | cons seg rest ih =>
    intro hno e
    have h0 : containsSub f seg.text = false := hno seg (List.mem_cons_self _ _)
    simp only [scanAnchors, h0, Option.isNone_none, Bool.true_and, Bool.false_eq_true, if_false,
      Option.isSome_none, Bool.false_and]
    exact ih (fun t ht => hno t (List.mem_cons_of_mem _ ht)) _

theorem scan_snd_none (f l : String) :
    ∀ (ts : List Segment), (∀ seg ∈ ts, containsSub l seg.text = false) →
      ∀ s, (scanAnchors f l ts s none).2 = none := by
  intro ts
  induction ts with
  | nil => intro _ s; rfl
  | cons seg rest ih =>
    intro hno s
    have h0 : containsSub l seg.text = false := hno seg (List.mem_cons_self _ _)
    simp only [scanAnchors, h0, Bool.false_eq_true, if_false, Option.isSome_none, Bool.and_false]
    exact ih (fun t ht => hno t (List.mem_cons_of_mem _ ht)) _

theorem scan_fst_unique (f l : String) (sF : Segment) :
    ∀ (ts : List Segment), ts.filter (matchesSeg f) = [sF] →
      ∀ e, (scanAnchors f l ts none e).1 = some sF := by
  intro ts
  induction ts with
  | nil => intro h; simp at h
  | cons seg rest ih =>
    intro hfil e
    by_cases hf : containsSub f seg.text = true
    · rw [List.filter_cons_of_pos (by simpa [matchesSeg] using hf)] at hfil
      obtain ⟨rfl, -⟩ : seg = sF ∧ rest.filter (matchesSeg f) = [] := by
        simpa using hfil
      simp only [scanAnchors, hf, Option.isNone_none, Bool.true_and, if_true,
        Option.isSome_some, Bool.true_and]
      split
      · rfl
      · split
        · rfl
        · exact scan_fst_locked f l _ rest _
    · rw [List.filter_cons_of_neg (by simpa [matchesSeg] using hf)] at hfil
      have hf' : containsSub f seg.text = false := by
        cases h : containsSub f seg.text
        · rfl
        · exact absurd h hf
      simp only [scanAnchors, hf', Option.isNone_none, Bool.true_and, Bool.false_eq_true,
        if_false, Option.isSome_none, Bool.false_and]
      exact ih hfil _

theorem scan_snd_unique (f l : String) (sL : Segment) :
    ∀ (ts : List Segment), ts.filter (matchesSeg l) = [sL] →
      ∀ s, (scanAnchors f l ts s none).2 = some sL := by
  intro ts
  induction ts with
  | nil => intro h; simp at h
  | cons seg rest ih =>
    intro hfil s
    by_cases hl : containsSub l seg.text = true
    · rw [List.filter_cons_of_pos (by simpa [matchesSeg] using hl)] at hfil
      obtain ⟨rfl, hrest⟩ : seg = sL ∧ rest.filter (matchesSeg l) = [] := by
        simpa using hfil
      have hnorest : ∀ t ∈ rest, containsSub l t.text = false := by
        intro t ht
        have := List.filter_eq_nil_iff.mp hrest t ht
        simpa [matchesSeg] using this
      simp only [scanAnchors, hl, if_true, Option.isSome_some, Bool.and_true]
      split
      · rfl
      · split
        · rfl
        · exact scan_snd_stable f l _ rest hnorest _
    · rw [List.filter_cons_of_neg (by simpa [matchesSeg] using hl)] at hfil
      have hl' : containsSub l seg.text = false := by
        cases h : containsSub l seg.text
        · rfl
        · exact absurd h hl
      simp only [scanAnchors, hl', Bool.false_eq_true, if_false, Option.isSome_none,
        Bool.and_false]
      exact ih hfil _

theorem scan_mem (f l : String) :
    ∀ (ts : List Segment) (s e : Option Segment),
      ((scanAnchors f l ts s e).1 = s ∨ ∃ x ∈ ts, (scanAnchors f l ts s e).1 = some x) ∧
      ((scanAnchors f l ts s e).2 = e ∨ ∃ x ∈ ts, (scanAnchors f l ts s e).2 = some x) := by
  intro ts
  induction ts with
  | nil => intro s e; exact ⟨Or.inl rfl, Or.inl rfl⟩
  | cons seg rest ih =>
    intro s e
    simp only [scanAnchors]
    set s' := if s.isNone && containsSub f seg.text then some seg else s with hs'
    set e' := if containsSub l seg.text then some seg else e with he'
    have hs'cases : s' = s ∨ s' = some seg := by
      rw [hs']; split
      · exact Or.inr rfl
      · exact Or.inl rfl
    have he'cases : e' = e ∨ e' = some seg := by
      rw [he']; split
      · exact Or.inr rfl
      · exact Or.inl rfl
    split
    · constructor
      · rcases hs'cases with h | h
        · exact Or.inl h
        · exact Or.inr ⟨seg, List.mem_cons_self _ _, h⟩
      · rcases he'cases with h | h
        · exact Or.inl h
        · exact Or.inr ⟨seg, List.mem_cons_self _ _, h⟩
    · obtain ⟨ih1, ih2⟩ := ih s' e'
      constructor
      · rcases ih1 with h | ⟨x, hx, hxe⟩
        · rcases hs'cases with h2 | h2
          · exact Or.inl (h.trans h2)
          · exact Or.inr ⟨seg, List.mem_cons_self _ _, h.trans h2⟩
        · exact Or.inr ⟨x, List.mem_cons_of_mem _ hx, hxe⟩
      · rcases ih2 with h | ⟨x, hx, hxe⟩
        · rcases he'cases with h2 | h2
          · exact Or.inl (h.trans h2)
          · exact Or.inr ⟨seg, List.mem_cons_self _ _, h.trans h2⟩
        · exact Or.inr ⟨x, List.mem_cons_of_mem _ hx, hxe⟩

/-- Claim C2: when the content's first sentence occurs in exactly one
transcript segment and its last sentence occurs in exactly one transcript
segment, reconciliation returns the highlight with `start` equal to the
first matched segment's `start` and `end` equal to the second matched
segment's `end` — the exact stored boundaries, no interpolation. -/
theorem C2_unique_anchors (h : Highlight) (ts : List Segment) (s0 : String) (rest : List String)
    (sF sL : Segment)
    (hsent : splitSentences h.content = s0 :: rest)
    (hF : ts.filter (matchesSeg s0) = [sF])
    (hL : ts.filter (matchesSeg (rest.getLastD s0)) = [sL]) :
    fix_highlight_timestamps h ts = ⟨sF.start, sL.stop, h.content⟩ := by
  have e1 : (scanAnchors s0 (rest.getLastD s0) ts none none).1 = some sF :=
    scan_fst_unique s0 (rest.getLastD s0) sF ts hF none
  have e2 : (scanAnchors s0 (rest.getLastD s0) ts none none).2 = some sL :=
    scan_snd_unique s0 (rest.getLastD s0) sL ts hL none
  simp only [fix_highlight_timestamps, hsent]
  rw [e1, e2]

/-- Witness for C2: the end-to-end scenario of the specification.  The
4-segment transcript is the worked example of the system prompt; the
candidate highlight carries the approximate boundaries 56.60 / 74.70 and
the concatenated text of segments 1 and 2; reconciliation returns exactly
start = 56.62 and end = 74.68, the stored boundaries of those segments. -/
theorem C2_unique_anchors_witness :
    fix_highlight_timestamps
      ⟨56.60, 74.70,
        "It doesn't matter how high school you take and how high school you are, life is always a way to overcome your year. But it doesn't matter how much you get from life, where are you most important conclusions from these gifts in the future?"⟩
      [⟨"It doesn't matter how high school you take and how high school you are, life is always a way to overcome your year.", 56.62, 65.12⟩,
       ⟨"But it doesn't matter how much you get from life, where are you most important conclusions from these gifts in the future?", 65.12, 74.68⟩,
       ⟨"What conclusions have I done?", 76.68, 77.60⟩,
       ⟨"Let's find out!", 77.70, 100.62⟩] =
      ⟨56.62, 74.68,
        "It doesn't matter how high school you take and how high school you are, life is always a way to overcome your year. But it doesn't matter how much you get from life, where are you most important conclusions from these gifts in the future?"⟩ :=
  C2_unique_anchors _ _
    "It doesn't matter how high school you take and how high school you are, life is always a way to overcome your year."
    ["But it doesn't matter how much you get from life, where are you most important conclusions from these gifts in the future?"]
    ⟨"It doesn't matter how high school you take and how high school you are, life is always a way to overcome your year.", 56.62, 65.12⟩
    ⟨"But it doesn't matter how much you get from life, where are you most important conclusions from these gifts in the future?", 65.12, 74.68⟩
    (by decide)
    (by rw [List.filter_cons_of_pos (by decide), List.filter_cons_of_neg (by decide),
          List.filter_cons_of_neg (by decide), List.filter_cons_of_neg (by decide),
          List.filter_nil])
    (by rw [List.filter_cons_of_neg (by decide), List.filter_cons_of_pos (by decide),
          List.filter_cons_of_neg (by decide), List.filter_cons_of_neg (by decide),
          List.filter_nil])

/-- Claim C3 as stated is false: when no segment matches, the boundaries
keep the candidate's values, which need not be any segment's boundary.
Here the highlight `{start 1, end 2, content "X."}` is reconciled against a
one-segment transcript whose only boundaries are 0 and 5, and both returned
boundaries (1 and 2) match no segment. -/
theorem C3_counterexample :
    (fix_highlight_timestamps ⟨1, 2, "X."⟩ [⟨"A.", 0, 5⟩]).start = 1 ∧
    (fix_highlight_timestamps ⟨1, 2, "X."⟩ [⟨"A.", 0, 5⟩]).stop = 2 ∧
    (∀ seg ∈ [Segment.mk "A." 0 5], seg.start ≠ 1 ∧ seg.stop ≠ 2) := by decide

/-- Claim C3 (amended): after reconciliation each boundary either equals
the corresponding boundary of some transcript segment or is left at the
input highlight's value (the unmatched-anchor fallback). -/
theorem C3_exact_boundaries (h : Highlight) (ts : List Segment) :
    ((fix_highlight_timestamps h ts).start = h.start ∨
      ∃ seg ∈ ts, (fix_highlight_timestamps h ts).start = seg.start) ∧
    ((fix_highlight_timestamps h ts).stop = h.stop ∨
      ∃ seg ∈ ts, (fix_highlight_timestamps h ts).stop = seg.stop) := by
  cases hsent : splitSentences h.content with
  | nil =>
    refine ⟨Or.inl ?_, Or.inl ?_⟩ <;> simp [fix_highlight_timestamps, hsent]
  | cons s0 rest =>
    obtain ⟨h1, h2⟩ := scan_mem s0 (rest.getLastD s0) ts none none
    have hstart : (fix_highlight_timestamps h ts).start = h.start ∨
        ∃ seg ∈ ts, (fix_highlight_timestamps h ts).start = seg.start := by
      cases hr1 : (scanAnchors s0 (rest.getLastD s0) ts none none).1 with
      | none =>
        left
        simp only [fix_highlight_timestamps, hsent]
        rw [hr1]
        cases hr2 : (scanAnchors s0 (rest.getLastD s0) ts none none).2 <;> rfl
      | some a =>
        rcases h1 with h1 | ⟨x, hx, hxe⟩
        · rw [hr1] at h1; cases h1
        · rw [hr1] at hxe
          obtain rfl : a = x := by simpa using hxe
          right
          refine ⟨a, hx, ?_⟩
          simp only [fix_highlight_timestamps, hsent]
          rw [hr1]
          cases hr2 : (scanAnchors s0 (rest.getLastD s0) ts none none).2 <;> rfl
    have hstop : (fix_highlight_timestamps h ts).stop = h.stop ∨
        ∃ seg ∈ ts, (fix_highlight_timestamps h ts).stop = seg.stop := by
      cases hr2 : (scanAnchors s0 (rest.getLastD s0) ts none none).2 with
      | none =>
        left
        simp only [fix_highlight_timestamps, hsent]
        rw [hr2]
        cases hr1 : (scanAnchors s0 (rest.getLastD s0) ts none none).1 <;> rfl
      | some b =>
        rcases h2 with h2 | ⟨x, hx, hxe⟩
        · rw [hr2] at h2; cases h2
        · rw [hr2] at hxe
          obtain rfl : b = x := by simpa using hxe
          right
          refine ⟨b, hx, ?_⟩
          simp only [fix_highlight_timestamps, hsent]
          rw [hr2]
    exact ⟨hstart, hstop⟩

/-- Claim C4: reconciliation is the identity on an unmatched boundary.  If
no segment contains the first sentence the returned `start` is the input
`start`; if no segment contains the last sentence the returned `end` is the
input `end`; and if the content splits into no non-empty sentences the
highlight is returned unmodified. -/
theorem C4_unmatched_identity (h : Highlight) (ts : List Segment) :
    (splitSentences h.content = [] → fix_highlight_timestamps h ts = h) ∧
    (∀ s0 rest, splitSentences h.content = s0 :: rest →
      ((∀ seg ∈ ts, containsSub s0 seg.text = false) →
        (fix_highlight_timestamps h ts).start = h.start) ∧
      ((∀ seg ∈ ts, containsSub (rest.getLastD s0) seg.text = false) →
        (fix_highlight_timestamps h ts).stop = h.stop)) := by
  constructor
  · intro hsent
    simp [fix_highlight_timestamps, hsent]
  · intro s0 rest hsent
    constructor
    · intro hno
      have e1 : (scanAnchors s0 (rest.getLastD s0) ts none none).1 = none :=
        scan_fst_none s0 (rest.getLastD s0) ts hno none
      simp only [fix_highlight_timestamps, hsent]
      rw [e1]
      cases hr2 : (scanAnchors s0 (rest.getLastD s0) ts none none).2 <;> rfl
    · intro hno
      have e2 : (scanAnchors s0 (rest.getLastD s0) ts none none).2 = none :=
        scan_snd_none s0 (rest.getLastD s0) ts hno none
      simp only [fix_highlight_timestamps, hsent]
      rw [e2]
      cases hr1 : (scanAnchors s0 (rest.getLastD s0) ts none none).1 <;> rfl

/-- Witness for C4: a highlight whose one sentence occurs in no segment is
returned with both boundaries unchanged. -/
theorem C4_unmatched_identity_witness :
    (fix_highlight_timestamps ⟨(3 : Rat), 7, "Y!"⟩ [⟨"A.", 0, 5⟩, ⟨"B.", 5, 9⟩]).start = 3 ∧
    (fix_highlight_timestamps ⟨(3 : Rat), 7, "Y!"⟩ [⟨"A.", 0, 5⟩, ⟨"B.", 5, 9⟩]).stop = 7 := by
  have h := (C4_unmatched_identity ⟨(3 : Rat), 7, "Y!"⟩ [⟨"A.", 0, 5⟩, ⟨"B.", 5, 9⟩]).2
    "Y!" [] (by decide)
  exact ⟨h.1 (by decide), h.2 (by decide)⟩

/-! ### Full characterisation of the anchor scan (for claim C1) -/

theorem scan_step_break_both (f l : String) (seg : Segment) (rest : List Segment)
    (hf : containsSub f seg.text = true) (hl : containsSub l seg.text = true)
    (e : Option Segment) :
    scanAnchors f l (seg :: rest) none e = (some seg, some seg) := by
  simp [scanAnchors, hf, hl]

theorem scan_step_first_only (f l : String) (seg : Segment) (rest : List Segment)
    (hf : containsSub f seg.text = true) (hl : containsSub l seg.text = false) :
    scanAnchors f l (seg :: rest) none none = scanAnchors f l rest (some seg) none := by
  simp [scanAnchors, hf, hl]

theorem scan_step_first_only_found (f l : String) (seg : Segment) (rest : List Segment)
    (hf : containsSub f seg.text = true) (hl : containsSub l seg.text = false)
    (y : Segment) :
    scanAnchors f l (seg :: rest) none (some y) = (some seg, some y) := by
  simp [scanAnchors, hf, hl]

theorem scan_step_last_only (f l : String) (seg : Segment) (rest : List Segment)
    (hf : containsSub f seg.text = false) (hl : containsSub l seg.text = true)
    (e : Option Segment) :
    scanAnchors f l (seg :: rest) none e = scanAnchors f l rest none (some seg) := by
  simp [scanAnchors, hf, hl]

theorem scan_step_neither (f l : String) (seg : Segment) (rest : List Segment)
    (hf : containsSub f seg.text = false) (hl : containsSub l seg.text = false)
    (e : Option Segment) :
    scanAnchors f l (seg :: rest) none e = scanAnchors f l rest none e := by
  simp [scanAnchors, hf, hl]

theorem scan_locked_first_last (f l : String) (x : Segment) :
    ∀ (ts : List Segment),
      scanAnchors f l ts (some x) none = (some x, firstMatch (matchesSeg l) ts) := by
  intro ts
  induction ts with
  | nil => rfl
  | cons seg rest ih =>
    by_cases hl : containsSub l seg.text = true
    · simp [scanAnchors, firstMatch, matchesSeg, hl]
    · have hl' : containsSub l seg.text = false := by
        cases h : containsSub l seg.text
        · rfl
        · exact absurd h hl
      simp [scanAnchors, firstMatch, matchesSeg, hl', ih]

theorem lastMatch_cons_neg {α : Type} (p : α → Bool) (a : α) (l : List α)
    (ha : p a = false) : lastMatch p (a :: l) = lastMatch p l := by
  cases h : lastMatch p l <;> simp [lastMatch, h, ha]

theorem scan_from_found_end (f l : String) :
    ∀ (ts : List Segment) (y : Segment),
      scanAnchors f l ts none (some y) =
        if (firstMatch (matchesSeg f) ts).isSome then
          (firstMatch (matchesSeg f) ts,
            someD (lastMatch (matchesSeg l) (upToFirst (matchesSeg f) ts)) y)
        else (none, someD (lastMatch (matchesSeg l) ts) y) := by
  intro ts
  induction ts with
  | nil => intro y; rfl
  | cons seg rest ih =>
    intro y
    by_cases hf : containsSub f seg.text = true
    · have hfm : firstMatch (matchesSeg f) (seg :: rest) = some seg := by
        simp [firstMatch, matchesSeg, hf]
      have hup : upToFirst (matchesSeg f) (seg :: rest) = [seg] := by
        simp [upToFirst, matchesSeg, hf]
      by_cases hl : containsSub l seg.text = true
      · rw [scan_step_break_both f l seg rest hf hl, hfm, hup]
        simp [lastMatch, matchesSeg, hl, someD]
      · have hl' : containsSub l seg.text = false := by simpa using hl
        rw [scan_step_first_only_found f l seg rest hf hl', hfm, hup]
        simp [lastMatch, matchesSeg, hl', someD]
    · have hf' : containsSub f seg.text = false := by simpa using hf
      have hfm : firstMatch (matchesSeg f) (seg :: rest) = firstMatch (matchesSeg f) rest := by
        simp [firstMatch, matchesSeg, hf']
      have hup : upToFirst (matchesSeg f) (seg :: rest) =
          seg :: upToFirst (matchesSeg f) rest := by
        simp [upToFirst, matchesSeg, hf']
      by_cases hl : containsSub l seg.text = true
      · rw [scan_step_last_only f l seg rest hf' hl, ih seg, hfm, hup]
        by_cases hrs : (firstMatch (matchesSeg f) rest).isSome
        · rw [if_pos hrs, if_pos hrs]
          cases hlm : lastMatch (matchesSeg l) (upToFirst (matchesSeg f) rest) with
          | some x => simp [lastMatch, hlm, someD]
          | none => simp [lastMatch, hlm, someD, matchesSeg, hl]
        · rw [if_neg hrs, if_neg hrs]
          cases hlm : lastMatch (matchesSeg l) rest with
          | some x => simp [lastMatch, hlm, someD]
          | none => simp [lastMatch, hlm, someD, matchesSeg, hl]
      · have hl' : containsSub l seg.text = false := by simpa using hl
        rw [scan_step_neither f l seg rest hf' hl', ih y, hfm, hup]
        by_cases hrs : (firstMatch (matchesSeg f) rest).isSome
        · rw [if_pos hrs, if_pos hrs,
            lastMatch_cons_neg _ _ _ (by simp [matchesSeg, hl'])]
        · rw [if_neg hrs, if_neg hrs,
            lastMatch_cons_neg _ _ _ (by simp [matchesSeg, hl'])]

theorem scan_spec (f l : String) :
    ∀ (ts : List Segment),
      scanAnchors f l ts none none =
        (firstMatch (matchesSeg f) ts,
          endAnchorSpec (matchesSeg f) (matchesSeg l) ts) := by
  intro ts
  induction ts with
  | nil => rfl
  | cons seg rest ih =>
    by_cases hf : containsSub f seg.text = true
    · have hfm : firstMatch (matchesSeg f) (seg :: rest) = some seg := by
        simp [firstMatch, matchesSeg, hf]
      have hup : upToFirst (matchesSeg f) (seg :: rest) = [seg] := by
        simp [upToFirst, matchesSeg, hf]
      by_cases hl : containsSub l seg.text = true
      · rw [scan_step_break_both f l seg rest hf hl]
        simp [endAnchorSpec, hfm, hup, lastMatch, matchesSeg, hl]
      · have hl' : containsSub l seg.text = false := by simpa using hl
        rw [scan_step_first_only f l seg rest hf hl', scan_locked_first_last]
        simp [endAnchorSpec, hfm, hup, lastMatch, firstMatch, matchesSeg, hl', hf]
    · have hf' : containsSub f seg.text = false := by simpa using hf
      have hfm : firstMatch (matchesSeg f) (seg :: rest) = firstMatch (matchesSeg f) rest := by
        simp [firstMatch, matchesSeg, hf']
      have hup : upToFirst (matchesSeg f) (seg :: rest) =
          seg :: upToFirst (matchesSeg f) rest := by
        simp [upToFirst, matchesSeg, hf']
      by_cases hl : containsSub l seg.text = true
      · rw [scan_step_last_only f l seg rest hf' hl, scan_from_found_end f l rest seg]
        by_cases hrs : (firstMatch (matchesSeg f) rest).isSome
        · rw [if_pos hrs]
          cases hlm : lastMatch (matchesSeg l) (upToFirst (matchesSeg f) rest) with
          | some x =>
            simp [endAnchorSpec, hfm, hup, hrs, lastMatch, hlm, someD, firstMatch,
              matchesSeg, hf', hl]
          | none =>
            simp [endAnchorSpec, hfm, hup, hrs, lastMatch, hlm, someD, firstMatch,
              matchesSeg, hf', hl]
        · rw [if_neg hrs]
          have hfn : firstMatch (matchesSeg f) rest = none :=
            Option.not_isSome_iff_eq_none.mp hrs
          cases hlm : lastMatch (matchesSeg l) rest with
          | some x =>
            simp [endAnchorSpec, hfm, hup, hfn, lastMatch, hlm, someD, firstMatch,
              matchesSeg, hf', hl]
          | none =>
            simp [endAnchorSpec, hfm, hup, hfn, lastMatch, hlm, someD, firstMatch,
              matchesSeg, hf', hl]
      · have hl' : containsSub l seg.text = false := by simpa using hl
        rw [scan_step_neither f l seg rest hf' hl', ih]
        by_cases hrs : (firstMatch (matchesSeg f) rest).isSome
        · cases hlm : lastMatch (matchesSeg l) (upToFirst (matchesSeg f) rest) with
          | some x =>
            simp [endAnchorSpec, hfm, hup, hrs, lastMatch, hlm, firstMatch,
              matchesSeg, hf', hl']
          | none =>
            simp [endAnchorSpec, hfm, hup, hrs, lastMatch, hlm, firstMatch,
              matchesSeg, hf', hl']
        · have hfn : firstMatch (matchesSeg f) rest = none :=
            Option.not_isSome_iff_eq_none.mp hrs
          cases hlm : lastMatch (matchesSeg l) rest with
          | some x =>
            simp [endAnchorSpec, hfm, hup, hfn, lastMatch, hlm, firstMatch,
              matchesSeg, hf', hl']
          | none =>
            simp [endAnchorSpec, hfm, hup, hfn, lastMatch, hlm, firstMatch,
              matchesSeg, hf', hl']

/-- Claim C1 as stated is false on the code.  With the transcript
`[{A., 0, 1}, {B., 1, 2}, {B., 2, 3}]` and content "A. B.", the last
sentence "B." matches two segments and the latest matching segment ends at
3, yet reconciliation sets the end to 2: the loop breaks as soon as both
anchors are found, so the later match at index 2 is never reached. -/
theorem C1_counterexample :
    splitSentences "A. B." = ["A.", "B."] ∧
    (List.filter (matchesSeg "B.") [⟨"A.", 0, 1⟩, ⟨"B.", 1, 2⟩, ⟨"B.", 2, 3⟩]).length = 2 ∧
    lastMatch (matchesSeg "B.") [⟨"A.", 0, 1⟩, ⟨"B.", 1, 2⟩, ⟨"B.", 2, 3⟩] =
      some ⟨"B.", 2, 3⟩ ∧
    (fix_highlight_timestamps ⟨0, 10, "A. B."⟩
      [⟨"A.", 0, 1⟩, ⟨"B.", 1, 2⟩, ⟨"B.", 2, 3⟩]).stop = 2 ∧
    (2 : Rat) ≠ 3 := by decide

/-- Claim C1 (amended): the start is still the start of the earliest
segment containing the first sentence (unchanged when there is none), but
the end anchor is `endAnchorSpec`: the scan stops once both anchors are
set, so the end is the end of the latest last-sentence match within the
prefix up to and including the earliest first-sentence match — failing
that, of the earliest last-sentence match overall — and only when the
first sentence matches no segment is it the latest last-sentence match of
the whole list, as the claim stated. -/
theorem C1_latest_scanned_match (h : Highlight) (ts : List Segment)
    (s0 : String) (rest : List String)
    (hsent : splitSentences h.content = s0 :: rest)
    (hmulti : 1 < (ts.filter (matchesSeg (rest.getLastD s0))).length) :
    (fix_highlight_timestamps h ts).start =
      ((firstMatch (matchesSeg s0) ts).map Segment.start).getD h.start ∧
    (fix_highlight_timestamps h ts).stop =
      ((endAnchorSpec (matchesSeg s0) (matchesSeg (rest.getLastD s0)) ts).map
        Segment.stop).getD h.stop := by
  have hs := scan_spec s0 (rest.getLastD s0) ts
  have e1 : (scanAnchors s0 (rest.getLastD s0) ts none none).1 =
      firstMatch (matchesSeg s0) ts := by rw [hs]
  have e2 : (scanAnchors s0 (rest.getLastD s0) ts none none).2 =
      endAnchorSpec (matchesSeg s0) (matchesSeg (rest.getLastD s0)) ts := by rw [hs]
  constructor
  · simp only [fix_highlight_timestamps, hsent]
    rw [e1, e2]
    cases firstMatch (matchesSeg s0) ts <;>
      cases endAnchorSpec (matchesSeg s0) (matchesSeg (rest.getLastD s0)) ts <;> rfl
  · simp only [fix_highlight_timestamps, hsent]
    rw [e1, e2]
    cases firstMatch (matchesSeg s0) ts <;>
      cases endAnchorSpec (matchesSeg s0) (matchesSeg (rest.getLastD s0)) ts <;> rfl

/-- Witness for C1 (amended) at the counterexample's input: the first
sentence "A." first matches at index 0, no last-sentence match lies at or
before index 0, so the end anchor is the earliest "B." match (end 2), and
the start anchor is the earliest "A." match (start 0). -/
theorem C1_latest_scanned_match_witness :
    (fix_highlight_timestamps ⟨0, 10, "A. B."⟩
        [⟨"A.", 0, 1⟩, ⟨"B.", 1, 2⟩, ⟨"B.", 2, 3⟩]).start = 0 ∧
    (fix_highlight_timestamps ⟨0, 10, "A. B."⟩
        [⟨"A.", 0, 1⟩, ⟨"B.", 1, 2⟩, ⟨"B.", 2, 3⟩]).stop = 2 := by
  have h := C1_latest_scanned_match ⟨0, 10, "A. B."⟩
    [⟨"A.", 0, 1⟩, ⟨"B.", 1, 2⟩, ⟨"B.", 2, 3⟩] "A." ["B."] (by decide) (by decide)
  exact ⟨h.1.trans (by decide), h.2.trans (by decide)⟩

/-! ### Lemmas about `_split_subtitle` word splitting and chunking -/

theorem pySplitAux_words_good :
    ∀ (cs cur : List Char), (∀ c ∈ cur, isWs c = false) →
      ∀ w ∈ pySplitAux cs cur, w.data ≠ [] ∧ ∀ c ∈ w.data, isWs c = false := by
  intro cs
  induction cs with
  | nil =>
    intro cur hcur w hw
    by_cases hemp : cur.isEmpty
    · simp [pySplitAux, hemp] at hw
    · have hne : cur ≠ [] := by simpa [List.isEmpty_iff] using hemp
      simp [pySplitAux, hemp] at hw
      subst hw
      refine ⟨by simpa using hne, ?_⟩
      intro c hc
      exact hcur c (by simpa using hc)
  | cons c cs ih =>
    intro cur hcur w hw
    by_cases hws : isWs c = true
    · by_cases hemp : cur.isEmpty
      · rw [pySplitAux] at hw
        simp only [hws, if_true, hemp] at hw
        exact ih [] (by simp) w hw
      · have hne : cur ≠ [] := by simpa [List.isEmpty_iff] using hemp
        rw [pySplitAux] at hw
        simp only [hws, if_true, hemp, if_false] at hw
        rcases List.mem_cons.mp hw with h | h
        · subst h
          refine ⟨by simpa using hne, ?_⟩
          intro ch hch
          exact hcur ch (by simpa using hch)
        · exact ih [] (by simp) w h
    · have hws' : isWs c = false := by simpa using hws
      rw [pySplitAux] at hw
      simp only [hws', Bool.false_eq_true, if_false] at hw
      refine ih (c :: cur) ?_ w hw
      intro ch hch
      rcases List.mem_cons.mp hch with h | h
      · subst h; exact hws'
      · exact hcur ch h

theorem pySplitAux_append (w : List Char) (hw : ∀ c ∈ w, isWs c = false) :
    ∀ (rest cur : List Char), pySplitAux (w ++ rest) cur = pySplitAux rest (w.reverse ++ cur) := by
  induction w with
  | nil => intro rest cur; simp
  | cons c w' ih =>
    intro rest cur
    have hc : isWs c = false := hw c (List.mem_cons_self _ _)
    have hw' : ∀ ch ∈ w', isWs ch = false := fun ch h => hw ch (List.mem_cons_of_mem _ h)
    rw [List.cons_append, pySplitAux]
    simp only [hc, Bool.false_eq_true, if_false]
    rw [ih hw' rest (c :: cur)]
    simp [List.append_assoc]

theorem pySplit_joinSp :
    ∀ (g : List String), (∀ w ∈ g, w.data ≠ [] ∧ ∀ c ∈ w.data, isWs c = false) →
      pySplit (joinSp g) = g := by
  intro g
  induction g with
  | nil => intro _; rfl
  | cons w g' ih =>
    intro hg
    obtain ⟨hne, hall⟩ := hg w (List.mem_cons_self _ _)
    cases g' with
    | nil =>
      show pySplitAux (joinSp [w]).data [] = [w]
      have hj : joinSp [w] = w := rfl
      rw [hj]
      have happ := pySplitAux_append w.data hall [] []
      rw [List.append_nil] at happ
      rw [happ]
      have hne' : (w.data.reverse ++ ([] : List Char)).isEmpty = false := by
        simp [List.isEmpty_iff, hne]
      rw [pySplitAux]
      simp [hne', List.reverse_reverse, hne]
    | cons x g'' =>
      have hgrest : ∀ v ∈ x :: g'', v.data ≠ [] ∧ ∀ c ∈ v.data, isWs c = false :=
        fun v hv => hg v (List.mem_cons_of_mem _ hv)
      show pySplitAux (joinSp (w :: x :: g'')).data [] = w :: x :: g''
      have hj : joinSp (w :: x :: g'') = w ++ " " ++ joinSp (x :: g'') := rfl
      rw [hj]
      have hdata : (w ++ " " ++ joinSp (x :: g'')).data =
          w.data ++ (' ' :: (joinSp (x :: g'')).data) := by
        simp [String.data_append]
      rw [hdata, pySplitAux_append w.data hall, List.append_nil]
      have hne' : (w.data.reverse).isEmpty = false := by
        simp [List.isEmpty_iff, hne]
      rw [pySplitAux]
      have hsp : isWs ' ' = true := rfl
      simp only [hsp, if_true, hne', Bool.false_eq_true, if_false]
      have ih' : pySplitAux (joinSp (x :: g'')).data [] = x :: g'' := ih hgrest
      rw [List.reverse_reverse, ih']

theorem buildChunks_length (start duration : Rat) (W : Nat) :
    ∀ (i : Nat) (ws : List String),
      (buildChunks start duration W i ws).length = (ws.length + 2) / 3
  | _, [] => by simp [buildChunks]
  | _, [w] => by simp [buildChunks]
  | _, [w, x] => by simp [buildChunks]
  | i, w :: x :: y :: rest => by
    have ih := buildChunks_length start duration W (i + 3) rest
    simp only [buildChunks, List.length_cons, ih]
    omega

theorem buildChunks_sum (start duration : Rat) (W : Nat) :
    ∀ (i : Nat) (ws : List String),
      ((buildChunks start duration W i ws).map fun c => c.stop - c.start).sum =
        duration * ((ws.length : Rat) / (W : Rat))
  | _, [] => by simp [buildChunks]
  | _, [w] => by
    simp only [buildChunks, List.map_cons, List.map_nil, List.sum_cons, List.sum_nil,
      List.length_cons, List.length_nil, List.length_singleton]
    push_cast
    ring
  | _, [w, x] => by
    simp only [buildChunks, List.map_cons, List.map_nil, List.sum_cons, List.sum_nil,
      List.length_cons, List.length_nil]
    push_cast
    ring
  | i, w :: x :: y :: rest => by
    have ih := buildChunks_sum start duration W (i + 3) rest
    simp only [buildChunks, List.map_cons, List.sum_cons, ih, List.length_cons,
      List.length_nil]
    push_cast
    ring

theorem buildChunks_text (start duration : Rat) (W : Nat) :
    ∀ (i : Nat) (ws : List String) (c : Subtitle), c ∈ buildChunks start duration W i ws →
      ∃ g : List String, g ≠ [] ∧ g.length ≤ 3 ∧ (∀ w ∈ g, w ∈ ws) ∧ c.text = joinSp g
  | _, [], c => by simp [buildChunks]
  | _, [w], c => by
    intro hc
    simp only [buildChunks, List.mem_singleton] at hc
    subst hc
    exact ⟨[w], by simp, by simp, by simp, rfl⟩
  | _, [w, x], c => by
    intro hc
    simp only [buildChunks, List.mem_singleton] at hc
    subst hc
    refine ⟨[w, x], by simp, by simp, ?_, rfl⟩
    intro v hv
    simpa using hv
  | i, w :: x :: y :: rest, c => by
    intro hc
    rcases List.mem_cons.mp hc with h | h
    · subst h
      refine ⟨[w, x, y], by simp, by simp, ?_, rfl⟩
      intro v hv
      rcases List.mem_cons.mp hv with h | h
      · simp [h]
      · rcases List.mem_cons.mp h with h | h
        · simp [h]
        · simp at h
          simp [h]
    · obtain ⟨g, hne, hlen, hmem, htext⟩ := buildChunks_text start duration W (i + 3) rest c h
      exact ⟨g, hne, hlen,
        fun v hv => List.mem_cons_of_mem _ (List.mem_cons_of_mem _
          (List.mem_cons_of_mem _ (hmem v hv))), htext⟩

/-- Claim C5: on a caption source whose text has `N >= 1` whitespace
words, `_split_subtitle` produces exactly `ceil(N/3) = (N+2)/3` chunks,
each chunk's text has at most 3 words, and the chunk durations
`(end - start)` sum exactly to the source's duration under rational
arithmetic. -/
theorem C5_chunking (sub : Subtitle) (h1 : 1 ≤ (pySplit sub.text).length) :
    (split_subtitle sub).length = ((pySplit sub.text).length + 2) / 3 ∧
    (∀ c ∈ split_subtitle sub, (pySplit c.text).length ≤ 3) ∧
    ((split_subtitle sub).map fun c => c.stop - c.start).sum = sub.stop - sub.start := by
  refine ⟨?_, ?_, ?_⟩
  · simp only [split_subtitle]
    exact buildChunks_length _ _ _ 0 _
  · intro c hc
    simp only [split_subtitle] at hc
    obtain ⟨g, hne, hlen, hmem, htext⟩ := buildChunks_text _ _ _ 0 _ c hc
    have hgood : ∀ w ∈ g, w.data ≠ [] ∧ ∀ ch ∈ w.data, isWs ch = false := by
      intro w hw
      exact pySplitAux_words_good sub.text.data [] (by simp) w (hmem w hw)
    rw [htext, pySplit_joinSp g hgood]
    exact hlen
  · simp only [split_subtitle]
    rw [buildChunks_sum]
    have hL : ((pySplit sub.text).length : Rat) ≠ 0 := by
      have h0 : 0 < (pySplit sub.text).length := h1
      exact_mod_cast Nat.pos_iff_ne_zero.mp h0
    rw [div_self hL, mul_one]

/-- Witness for C5: "a b c d" has 4 words, is chunked into ceil(4/3) = 2
chunks, and the chunk durations sum to the 6-second source duration. -/
theorem C5_chunking_witness :
    1 ≤ (pySplit "a b c d").length ∧
    (split_subtitle ⟨0, 6, "a b c d"⟩).length = 2 ∧
    ((split_subtitle ⟨0, 6, "a b c d"⟩).map fun c => c.stop - c.start).sum = (6 : Rat) - 0 := by
  have h := C5_chunking ⟨0, 6, "a b c d"⟩ (by decide)
  exact ⟨by decide, h.1.trans (by decide), h.2.2⟩

/-- Claim C10: a caption source whose text has no whitespace words (empty
or whitespace-only text) yields the empty chunk list; the per-chunk loop
body — the only place dividing by the word count — is never entered. -/
theorem C10_empty_words (sub : Subtitle) (h0 : pySplit sub.text = []) :
    split_subtitle sub = [] := by
  simp only [split_subtitle, h0]
  rfl

/-- Witness for C10 on whitespace-only text. -/
theorem C10_empty_words_witness :
    pySplit "  " = [] ∧ split_subtitle ⟨2, 5, "  "⟩ = [] :=
  ⟨by decide, C10_empty_words ⟨2, 5, "  "⟩ (by decide)⟩

/-- Claim C6 as stated is false: chunk texts are single-space joins of the
word groups, so for the 2-word source "a  b" (two spaces) the only chunk's
text is "a b" and concatenating the chunk texts gives "a b", not the
source's text "a  b". -/
theorem C6_counterexample :
    (split_subtitle ⟨0, 1, "a  b"⟩).map Subtitle.text = ["a b"] ∧
    String.join ((split_subtitle ⟨0, 1, "a  b"⟩).map Subtitle.text) = "a b" ∧
    "a b" ≠ "a  b" := by decide

theorem joinSp_cons_ne (w : String) (ws : List String) (h : ws ≠ []) :
    joinSp (w :: ws) = w ++ " " ++ joinSp ws := by
  cases ws with
  | nil => exact absurd rfl h
  | cons x t => rfl

theorem buildChunks_ne_nil (start duration : Rat) (W : Nat) (i : Nat) :
    ∀ (ws : List String), ws ≠ [] → buildChunks start duration W i ws ≠ []
  | [], h => absurd rfl h
  | [w], _ => by simp [buildChunks]
  | [w, x], _ => by simp [buildChunks]
  | w :: x :: y :: rest, _ => by simp [buildChunks]

theorem buildChunks_joinSp (start duration : Rat) (W : Nat) :
    ∀ (i : Nat) (ws : List String),
      joinSp ((buildChunks start duration W i ws).map Subtitle.text) = joinSp ws
  | _, [] => rfl
  | _, [w] => rfl
  | _, [w, x] => rfl
  | i, w :: x :: y :: rest => by
    have ih := buildChunks_joinSp start duration W (i + 3) rest
    cases hrest : rest with
    | nil => simp [buildChunks, joinSp]
    | cons r rs =>
      have hbne : buildChunks start duration W (i + 3) rest ≠ [] :=
        buildChunks_ne_nil _ _ _ _ rest (by simp [hrest])
      have hmapne : (buildChunks start duration W (i + 3) rest).map Subtitle.text ≠ [] := by
        simp [hbne]
      rw [hrest] at ih hmapne hbne
      simp only [buildChunks, List.map_cons]
      rw [joinSp_cons_ne _ _ hmapne, ih,
        joinSp_cons_ne w (x :: y :: r :: rs) (by simp),
        joinSp_cons_ne x (y :: r :: rs) (by simp),
        joinSp_cons_ne y (r :: rs) (by simp)]
      simp [joinSp, String.append_assoc]

/-- Claim C6 (amended): joining the chunk texts in order with a single
space between consecutive chunks reconstructs the whitespace-normalised
source text — the source's words joined by single spaces.  (It equals the
source text exactly only when the source already has single spaces and no
leading or trailing whitespace.) -/
theorem C6_roundtrip (sub : Subtitle) :
    joinSp ((split_subtitle sub).map Subtitle.text) = joinSp (pySplit sub.text) := by
  simp only [split_subtitle]
  exact buildChunks_joinSp _ _ _ 0 _

/-- Claim C7: caption filtering keeps exactly the chunks fully inside the
highlight window — both bounds checked against the original (pre-shift)
times — and then shifts the kept chunks by `-start_time`; a chunk not
fully contained is dropped whole, never truncated.  In particular the
chunk `{10, 12}` is kept for the window `[5, 20]` with local start 5. -/
theorem C7_caption_filter_then_shift :
    (∀ (subtitles : List Subtitle) (start_time end_time : Rat) (c : Subtitle),
      c ∈ trim_subtitles subtitles start_time end_time ↔
        ∃ s, s ∈ subtitles ∧ start_time ≤ s.start ∧ s.stop ≤ end_time ∧
          c = ⟨s.start - start_time, s.stop - start_time, s.text⟩) ∧
    trim_subtitles [⟨10, 12, "x"⟩] 5 20 = [⟨5, 7, "x"⟩] := by
  constructor
  · intro subtitles st et c
    simp only [trim_subtitles, List.mem_map, List.mem_filter, Bool.and_eq_true,
      decide_eq_true_eq]
    constructor
    · rintro ⟨s, ⟨hm, h1, h2⟩, rfl⟩
      exact ⟨s, hm, h1, h2, rfl⟩
    · rintro ⟨s, hm, h1, h2, rfl⟩
      exact ⟨s, ⟨hm, h1, h2⟩, rfl⟩
  · norm_num [trim_subtitles]

/-- Claim C8: on a frame wider than the target ratio the crop keeps
`x1 = (width - int(height*target)) // 2`, `x2 = x1 + int(height*target)`,
`y1 = 0`, `y2 = height`; equal ratios return the full frame unchanged; the
returned bounds always lie inside the frame; and for 1920x1080 at target
9/16 the result is exactly `{x1 656, y1 0, x2 1263, y2 1080}`. -/
theorem C8_crop_geometry (width height : Int) (target : Rat)
    (hw : 0 < width) (hh : 0 < height) (ht : 0 < target) :
    ((target < (width : Rat) / (height : Rat)) →
      crop_to_aspect_ratio width height target =
        ⟨(width - pyInt ((height : Rat) * target)).fdiv 2, 0,
         (width - pyInt ((height : Rat) * target)).fdiv 2 + pyInt ((height : Rat) * target),
         height⟩) ∧
    ((width : Rat) / (height : Rat) = target →
      crop_to_aspect_ratio width height target = ⟨0, 0, width, height⟩) ∧
    (0 ≤ (crop_to_aspect_ratio width height target).x1 ∧
      (crop_to_aspect_ratio width height target).x1 ≤
        (crop_to_aspect_ratio width height target).x2 ∧
      (crop_to_aspect_ratio width height target).x2 ≤ width ∧
      0 ≤ (crop_to_aspect_ratio width height target).y1 ∧
      (crop_to_aspect_ratio width height target).y1 ≤
        (crop_to_aspect_ratio width height target).y2 ∧
      (crop_to_aspect_ratio width height target).y2 ≤ height) ∧
    crop_to_aspect_ratio 1920 1080 ((9 : Rat) / 16) = ⟨656, 0, 1263, 1080⟩ := by
  have hhr : (0 : Rat) < (height : Rat) := by exact_mod_cast hh
  have hwr : (0 : Rat) < (width : Rat) := by exact_mod_cast hw
  refine ⟨?_, ?_, ?_, ?_⟩
  · intro h1
    simp only [crop_to_aspect_ratio]
    rw [if_pos h1]
  · intro heq
    simp only [crop_to_aspect_ratio]
    rw [if_neg (by rw [heq]; exact lt_irrefl _), if_neg (by rw [heq]; exact lt_irrefl _)]
  · rcases lt_trichotomy target ((width : Rat) / (height : Rat)) with h1 | h1 | h1
    · have hpy : pyInt ((height : Rat) * target) = ⌊(height : Rat) * target⌋ := by
        rw [pyInt, if_pos (mul_nonneg hhr.le ht.le)]
      have htw_lt : pyInt ((height : Rat) * target) < width := by
        have h2 : (height : Rat) * target < (width : Rat) := by
          rw [mul_comm]
          exact (lt_div_iff₀ hhr).mp h1
        have h3 : (↑⌊(height : Rat) * target⌋ : Rat) < (width : Rat) :=
          lt_of_le_of_lt (Int.floor_le _) h2
        rw [hpy]
        exact_mod_cast h3
      have htw0 : 0 ≤ pyInt ((height : Rat) * target) := by
        rw [hpy]
        exact Int.floor_nonneg.mpr (mul_nonneg hhr.le ht.le)
      simp only [crop_to_aspect_ratio]
      rw [if_pos h1]
      dsimp only
      rw [Int.fdiv_eq_ediv _ (by norm_num)]
      omega
    · simp only [crop_to_aspect_ratio]
      rw [if_neg (by rw [← h1]; exact lt_irrefl _), if_neg (by rw [← h1]; exact lt_irrefl _)]
      dsimp only
      omega
    · have hno1 : ¬ target < (width : Rat) / (height : Rat) := not_lt.mpr h1.le
      have hpy : pyInt ((width : Rat) / target) = ⌊(width : Rat) / target⌋ := by
        rw [pyInt, if_pos (div_nonneg hwr.le ht.le)]
      have hth_lt : pyInt ((width : Rat) / target) < height := by
        have h2 : (width : Rat) / target < (height : Rat) := by
          rw [div_lt_iff₀ ht]
          have h4 := (div_lt_iff₀ hhr).mp h1
          linarith
        have h3 : (↑⌊(width : Rat) / target⌋ : Rat) < (height : Rat) :=
          lt_of_le_of_lt (Int.floor_le _) h2
        rw [hpy]
        exact_mod_cast h3
      have hth0 : 0 ≤ pyInt ((width : Rat) / target) := by
        rw [hpy]
        exact Int.floor_nonneg.mpr (div_nonneg hwr.le ht.le)
      simp only [crop_to_aspect_ratio]
      rw [if_neg hno1, if_pos h1]
      dsimp only
      rw [Int.fdiv_eq_ediv _ (by norm_num)]
      omega
  · have hpy : pyInt (((1080 : Int) : Rat) * ((9 : Rat) / 16)) = 607 := by
      rw [pyInt, if_pos (by norm_num)]
      rw [Int.floor_eq_iff]
      constructor <;> norm_num
    simp only [crop_to_aspect_ratio]
    rw [if_pos (by norm_num)]
    rw [hpy]
    decide

/-- Witness for C8 at the spec's 1920x1080 frame with target ratio 9/16. -/
theorem C8_crop_geometry_witness :
    crop_to_aspect_ratio 1920 1080 ((9 : Rat) / 16) = ⟨656, 0, 1263, 1080⟩ :=
  (C8_crop_geometry 1920 1080 ((9 : Rat) / 16) (by norm_num) (by norm_num)
    (by norm_num)).2.2.2

/-- Claim C9: each iteration of `process_highlights` wraps the render of
one highlight in `try ... except ... continue`, so a failure at index `i`
is caught at the highlight boundary and every later highlight `j > i` is
still attempted; the outcome list always has one entry per highlight and
the entry at `j` is the handler applied to highlight `j`, whatever
happened earlier. -/
theorem C9_per_highlight_isolation (render : Highlight → Except String String)
    (hs : List Highlight) (i j : Nat) (hi : i < hs.length) (hj : j < hs.length)
    (hij : i < j) (e : String) (hfail : render (hs.get ⟨i, hi⟩) = .error e) :
    (process_highlights render hs).length = hs.length ∧
    (process_highlights render hs)[j]? = some (handleHighlight render (hs.get ⟨j, hj⟩)) := by
  have hmap : ∀ l : List Highlight,
      process_highlights render l = l.map (handleHighlight render) := by
    intro l
    induction l with
    | nil => rfl
    | cons a t ih => simp [process_highlights, ih]
  constructor
  · rw [hmap]
    simp
  · rw [hmap, List.getElem?_map, List.getElem?_eq_getElem hj]
    rfl

/-- Witness for C9: the first of two highlights fails to render, yet the
second is still attempted and succeeds. -/
theorem C9_per_highlight_isolation_witness :
    (process_highlights
        (fun h => if h.start = 0 then Except.error "boom" else Except.ok "out.mp4")
        [⟨0, 1, "a"⟩, ⟨5, 6, "b"⟩]).length = 2 ∧
    (process_highlights
        (fun h => if h.start = 0 then Except.error "boom" else Except.ok "out.mp4")
        [⟨0, 1, "a"⟩, ⟨5, 6, "b"⟩])[1]? =
      some (RenderOutcome.rendered "out.mp4") := by
  have h := C9_per_highlight_isolation
    (fun h => if h.start = 0 then Except.error "boom" else Except.ok "out.mp4")
    [⟨0, 1, "a"⟩, ⟨5, 6, "b"⟩] 0 1 (by norm_num) (by norm_num) (by norm_num)
    "boom" (by rfl)
  exact ⟨h.1, h.2.trans (by rfl)⟩
